import Mathlib

/-!
Verification development for the MindStash agentic conversation engine.

Shallow embedding of the agent subsystem:
  backend/app/services/ai/tool_registry.py  (ToolRegistry)
  backend/app/services/ai/agent.py          (session handling, transcript
                                             conversion, agent loop)
  backend/app/services/ai/agent_tools.py    (handle_mark_complete)

Conventions of the embedding:
  * database rows become Lean structures; the relevant columns are kept,
    columns no claim touches (timestamps used only for ordering, metadata)
    are omitted;
  * JSON dictionaries become association lists over a small value type;
  * the wall clock (datetime.utcnow) is passed in as an integer argument;
  * the Anthropic client is passed in as a function from the iteration
    index to the model response, so a turn is evaluated against an
    arbitrary sequence of model responses;
  * Python exceptions raised by tool handlers become an explicit
    HandlerOutcome.fault constructor, caught by ToolRegistry.execute.
-/

/-- Small JSON-like value type for tool inputs and tool results. -/
inductive JVal where
  | s (v : String)
  | b (v : Bool)
  | nat (v : Nat)
deriving DecidableEq, Repr

/-- Association-list form of a Python dict with JVal values. -/
abbrev JDict := List (String × JVal)

/-- Python membership test: does the dict contain the key. -/
def hasKey (m : JDict) (k : String) : Bool :=
  (m.lookup k).isSome

/-- Python truthiness of an optional dict value (dict.get with default False). -/
def jTruthy : Option JVal → Bool
  | some (JVal.b v) => v
  | some (JVal.s v) => v != ""
  | some (JVal.nat v) => v != 0
  | none => false

/-- Rendering of one JSON value, mirroring json.dumps on leaves. -/
def jvalDump : JVal → String
  | JVal.s v => "\"" ++ v ++ "\""
  | JVal.b true => "true"
  | JVal.b false => "false"
  | JVal.nat v => toString v

/-- Rendering of a dict, mirroring json.dumps(result) in the loop body. -/
def jsonDumps (m : JDict) : String :=
  "\x7b" ++ String.intercalate ", " (m.map (fun p => "\"" ++ p.1 ++ "\": " ++ jvalDump p.2)) ++ "\x7d"

/-- Row of the items table (backend/app/models/item.py); only the columns
the mark-complete tool reads or writes are kept.  Timestamps are integers. -/
structure Item where
  id : Nat
  user_id : Nat
  content : String
  is_completed : Bool
  completed_at : Option Int
  notification_date : Option Int
  notification_frequency : String
  notification_enabled : Bool
  next_notification_at : Option Int
deriving DecidableEq, Repr

/-- The item store: the rows of the items table. -/
abbrev ItemStore := List Item

/-- Outcome of invoking a tool handler: a normal return carrying the updated
store and a result dict, or a raised exception carrying its message. -/
inductive HandlerOutcome where
  | ok (store : ItemStore) (result : JDict)
  | fault (msg : String)

/-- A tool handler as stored in the registry: (db, user_id, tool_input). -/
abbrev Handler := ItemStore → Nat → JDict → HandlerOutcome

/-- One registry entry (tool_registry.py register body): schema kept as an
opaque tag, handler, and the agent types the tool is visible to. -/
structure ToolEntry where
  schema : String
  handler : Handler
  agent_types : List String

/-- The registry dict, name to entry, in insertion order. -/
abbrev Registry := List (String × ToolEntry)

/-- ToolRegistry.register: dict assignment by name, last registration wins
and keeps the original position; agent_types defaults to ["assistant"]
when None or empty (Python `agent_types or ["assistant"]`). -/
def ToolRegistry.register (reg : Registry) (name : String) (schema : String)
    (handler : Handler) (agent_types : Option (List String)) : Registry :=
  let entry : ToolEntry :=
    ⟨schema, handler,
      match agent_types with
      | some (t :: ts) => t :: ts
      | _ => ["assistant"]⟩
  if (reg.lookup name).isSome then
    reg.map (fun p => if p.1 == name then (name, entry) else p)
  else
    reg ++ [(name, entry)]

/-- ToolRegistry.get_schemas: schemas of the tools whose agent_types contain
the given tag. -/
def ToolRegistry.get_schemas (reg : Registry) (agent_type : String) : List String :=
  (reg.filter (fun p => p.2.agent_types.contains agent_type)).map (fun p => p.2.schema)

/-- ToolRegistry.execute: absent name gives an error dict without raising;
a handler fault is caught and converted to an error dict; otherwise the
handler result is returned as is.  The function is total, so execute never
raises. -/
def ToolRegistry.execute (reg : Registry) (name : String) (db : ItemStore)
    (user_id : Nat) (tool_input : JDict) : ItemStore × JDict :=
  match reg.lookup name with
  | none => (db, [("error", JVal.s ("Unknown tool: " ++ name))])
  | some tool =>
    match tool.handler db user_id tool_input with
    | HandlerOutcome.ok db1 r => (db1, r)
    | HandlerOutcome.fault m => (db, [("error", JVal.s m)])

/-- SQLAlchemy first() on the filter Item.id == item_id, Item.user_id == user_id. -/
def findItem (db : ItemStore) (iid uid : Nat) : Option Item :=
  db.find? (fun i => i.id == iid && i.user_id == uid)

/-- In-place ORM mutation followed by commit: rewrite the first row the
predicate selects. -/
def updateFirst (p : α → Bool) (f : α → α) : List α → List α
  | [] => []
  | x :: xs => if p x then f x :: xs else x :: updateFirst p f xs

/-- Field updates of handle_mark_complete on the selected item
(agent_tools.py lines 413-424). -/
def markCompleteUpdate (now : Int) (completed : Bool) (item : Item) : Item :=
  let item := { item with is_completed := completed }
  if completed then
    let item := { item with completed_at := some now }
    if item.notification_frequency == "weekly" || item.notification_frequency == "monthly"
        || item.notification_frequency == "daily" then
      { item with notification_enabled := false, next_notification_at := none }
    else item
  else
    let item := { item with completed_at := none }
    match item.notification_date with
    | some d =>
      let item := { item with notification_enabled := true }
      if d > now then { item with next_notification_at := some d } else item
    | none => item

/-- handle_mark_complete (agent_tools.py): params is the tool-input dict;
item_id must be present, completed defaults to True; the item is looked up
under the caller, mutated, committed, and a result dict is returned. -/
def handle_mark_complete (now : Int) (db : ItemStore) (user_id : Nat)
    (params : JDict) : ItemStore × JDict :=
  let completed := match params.lookup "completed" with
    | some (JVal.b v) => v
    | _ => true
  match params.lookup "item_id" with
  | some (JVal.nat iid) =>
    match findItem db iid user_id with
    | none => (db, [("error", JVal.s "Item not found")])
    | some item =>
      let item1 := markCompleteUpdate now completed item
      let db1 := updateFirst (fun i => i.id == iid && i.user_id == user_id)
        (markCompleteUpdate now completed) db
      (db1,
        [("completed", JVal.b completed),
         ("id", JVal.s (toString item1.id)),
         ("content", JVal.s (item1.content.take 100)),
         ("mutated", JVal.b true)])
  | _ => (db, [("error", JVal.s "item_id is required")])

/-- Row of the chat_sessions table (backend/app/models/chat.py); the columns
the engine reads or writes.  agent_type defaults to "assistant". -/
structure ChatSession where
  id : Nat
  user_id : Nat
  title : Option String
  agent_type : String
  last_active_at : Int
deriving DecidableEq, Repr

/-- The session store: the rows of the chat_sessions table. -/
abbrev SessionStore := List ChatSession

/-- The fresh row SQLAlchemy inserts for ChatSession(user_id=user_id):
column defaults from models/chat.py. -/
def newChatSession (freshId uid : Nat) (now : Int) : ChatSession :=
  ⟨freshId, uid, none, "assistant", now⟩

/-- Agent service _get_or_create_session (agent.py lines 51-71): when a
session id is supplied and resolves to a row owned by the caller, touch
last_active_at and return that row; in every other case insert and return a
new session owned by the caller.  now is datetime.utcnow(), freshId the id
the database assigns to an inserted row.  Returns the updated store and the
returned session.  The function is total: it never fails with NotFound. -/
def _get_or_create_session (db : SessionStore) (user_id : Nat)
    (session_id : Option Nat) (now : Int) (freshId : Nat) :
    SessionStore × ChatSession :=
  let found : Option ChatSession := match session_id with
    | some sid => db.find? (fun s => s.id == sid && s.user_id == user_id)
    | none => none
  match found, session_id with
  | some s, some sid =>
    (updateFirst (fun (t : ChatSession) => t.id == sid && t.user_id == user_id)
        (fun t => { t with last_active_at := now }) db,
      { s with last_active_at := now })
  | _, _ =>
    let s := newChatSession freshId user_id now
    (db ++ [s], s)

/-- Message roles used by the engine (models/chat.py role column). -/
inductive Role where
  | user
  | assistant
  | tool_result
deriving DecidableEq, Repr

/-- One tool-call descriptor as persisted on an assistant message:
[\x7bid, name, input\x7d]. -/
structure ToolCallRec where
  id : String
  name : String
  input : JDict
deriving DecidableEq, Repr

/-- One tool-result descriptor as persisted on a tool_result message:
[\x7btool_use_id, content\x7d]. -/
structure ToolResultRec where
  tool_use_id : String
  content : String
deriving DecidableEq, Repr

/-- Row of the chat_messages table: role, optional text, optional tool-call
list, optional tool-result list. -/
structure ChatMessage where
  role : Role
  content : Option String
  tool_calls : Option (List ToolCallRec)
  tool_results : Option (List ToolResultRec)
deriving DecidableEq, Repr

/-- One content block of an Anthropic API turn. -/
inductive ApiBlock where
  | textBlock (t : String)
  | toolUse (id name : String) (input : JDict)
  | toolResultBlock (tool_use_id : String) (content : String)
deriving DecidableEq, Repr

/-- Content of an Anthropic API turn: a bare string or a block list. -/
inductive ApiContent where
  | text (s : String)
  | blocks (bs : List ApiBlock)
deriving DecidableEq, Repr

/-- One turn of the Anthropic messages API. -/
structure ApiTurn where
  role : String
  content : ApiContent
deriving DecidableEq, Repr

/-- Transcript Converter _db_messages_to_anthropic (agent.py lines 106-136),
block by block: a user row always maps to a user turn whose text is
`msg.content or ""`; an assistant row maps to a text block when content is
truthy followed by one tool_use block per descriptor, and is dropped when no
block results; a tool_result row maps to a user turn of tool_result blocks
and is dropped when the descriptor list is falsy. -/
def _db_messages_to_anthropic : List ChatMessage → List ApiTurn
  | [] => []
  | msg :: rest =>
    let tail := _db_messages_to_anthropic rest
    match msg.role with
    | Role.user => ⟨"user", ApiContent.text (msg.content.getD "")⟩ :: tail
    | Role.assistant =>
      let content_blocks :=
        (match msg.content with
          | some c => if c == "" then [] else [ApiBlock.textBlock c]
          | none => []) ++
        (msg.tool_calls.getD []).map (fun tc => ApiBlock.toolUse tc.id tc.name tc.input)
      if content_blocks.isEmpty then tail
      else ⟨"assistant", ApiContent.blocks content_blocks⟩ :: tail
    | Role.tool_result =>
      let content_blocks :=
        (msg.tool_results.getD []).map
          (fun tr => ApiBlock.toolResultBlock tr.tool_use_id tr.content)
      if content_blocks.isEmpty then tail
      else ⟨"user", ApiContent.blocks content_blocks⟩ :: tail

/-- Modelled from the spec: the reverse direction of the Transcript
Converter, which the repository does not implement as a named function.
Spec 4.2: a user turn with text content is a user message with that text; a
user turn made of tool-result blocks is a tool_result message carrying one
descriptor per block with the matching call id; an assistant turn is an
assistant message whose text is the text blocks and whose tool-call
descriptors are the tool-invocation blocks, each tagged with its call id. -/
def anthropic_to_db_spec : List ApiTurn → List ChatMessage
  | [] => []
  | turn :: rest =>
    let tail := anthropic_to_db_spec rest
    match turn.role, turn.content with
    | "user", ApiContent.text s => ⟨Role.user, some s, none, none⟩ :: tail
    | "user", ApiContent.blocks bs =>
      ⟨Role.tool_result, none, none,
        some (bs.filterMap (fun b => match b with
          | ApiBlock.toolResultBlock i c => some ⟨i, c⟩
          | _ => none))⟩ :: tail
    | "assistant", ApiContent.blocks bs =>
      let texts := bs.filterMap (fun b => match b with
        | ApiBlock.textBlock t => some t
        | _ => none)
      let tcs := bs.filterMap (fun b => match b with
        | ApiBlock.toolUse i n inp => some (ToolCallRec.mk i n inp)
        | _ => none)
      ⟨Role.assistant,
        (if texts.isEmpty then none else some (String.intercalate "\n" texts)),
        (if tcs.isEmpty then none else some tcs), none⟩ :: tail
    | _, _ => tail

/-- Well-formed tool-call and tool-result pairing over a persisted message
sequence: every tool-call descriptor of an assistant message is answered
exactly once, by call id, in the immediately following tool_result message. -/
def wellFormedPairing : List ChatMessage → Bool
  | [] => true
  | m :: rest =>
    (match m.role, m.tool_calls with
      | Role.assistant, some (c :: cs) =>
        match rest with
        | r :: _ =>
          r.role == Role.tool_result &&
            (c :: cs).all (fun tc =>
              ((r.tool_results.getD []).countP (fun tr => tr.tool_use_id == tc.id)) == 1)
        | [] => false
      | _, _ => true) &&
    wellFormedPairing rest

/-- Presence conditions under which one persisted message survives the
conversion: a user row carries text and no descriptors; an assistant row
carries no empty-string text, at least one of text or tool calls, and no
tool results; a tool_result row carries no text, no tool calls, and at
least one descriptor. -/
def msgRoundTrips (m : ChatMessage) : Bool :=
  match m.role with
  | Role.user =>
    m.content.isSome && (m.tool_calls.getD []).isEmpty && (m.tool_results.getD []).isEmpty
  | Role.assistant =>
    (m.content != some "") &&
      (m.content.isSome || !(m.tool_calls.getD []).isEmpty) &&
      (m.tool_results.getD []).isEmpty
  | Role.tool_result =>
    m.content.isNone && (m.tool_calls.getD []).isEmpty &&
      !(m.tool_results.getD []).isEmpty

/-- What the round trip is required to preserve: the role, the text
content, the tool-call descriptors (call id, name, input), and the
tool-result descriptors (call id, content). -/
def preservesMsg (orig rt : ChatMessage) : Bool :=
  rt.role == orig.role && rt.content == orig.content &&
    rt.tool_calls.getD [] == orig.tool_calls.getD [] &&
    rt.tool_results.getD [] == orig.tool_results.getD []

/-- Python truthiness of an optional string: None and the empty string are
falsy. -/
def strTruthy : Option String → Option String
  | some "" => none
  | x => x

/-- Iteration budget of the agent loop (agent.py line 27). -/
def MAX_ITERATIONS : Nat := 10

/-- History cap of _load_messages (agent.py line 28). -/
def MAX_HISTORY_MESSAGES : Nat := 50

/-- Tools whose results may carry mutated: true (agent.py line 31). -/
def MUTATING_TOOLS : List String :=
  ["create_item", "update_item", "delete_item", "mark_complete"]

/-- One content block of a model response. -/
inductive ContentBlock where
  | text (t : String)
  | tool_use (id name : String) (input : JDict)
deriving DecidableEq, Repr

/-- One model response: either the client raising (network or service
fault) or a normal response with a stop reason and content blocks. -/
inductive ModelResponse where
  | fault (msg : String)
  | ok (stop_reason : String) (content : List ContentBlock)
deriving DecidableEq, Repr

/-- A tool_use block extracted from a response. -/
structure ToolUseBlock where
  id : String
  name : String
  input : JDict
deriving DecidableEq, Repr

/-- Events of the SSE stream (agent.py docstring of run_agent). -/
inductive Event where
  | session_id (sid : Nat)
  | text_delta (text : String)
  | tool_start (tool : String) (message : String)
  | tool_result (tool : String) (success : Bool) (mutated : Bool)
  | error (message : String)
  | done
deriving DecidableEq, Repr

/-- The friendly_names dict of the loop body with its default
(agent.py lines 231-243). -/
def friendly_names (name : String) : String :=
  if name == "search_items" then "Searching your items..."
  else if name == "create_item" then "Saving your thought..."
  else if name == "update_item" then "Updating item..."
  else if name == "delete_item" then "Deleting item..."
  else if name == "mark_complete" then "Updating completion status..."
  else if name == "get_counts" then "Getting overview..."
  else if name == "get_upcoming_notifications" then "Checking notifications..."
  else if name == "get_digest_preview" then "Preparing digest..."
  else "Using " ++ name ++ "..."

/-- The per-round tool execution loop (agent.py lines 228-259): for each
requested block, in request order, emit tool_start, execute through the
registry, emit tool_result with success and mutated flags, and accumulate a
tool-result descriptor.  Returns the emitted events, the descriptors, and
the item store after all executions. -/
def runTools (reg : Registry) (store : ItemStore) (uid : Nat) :
    List ToolUseBlock → List Event × List ToolResultRec × ItemStore
  | [] => ([], [], store)
  | tb :: rest =>
    let startEv := Event.tool_start tb.name (friendly_names tb.name)
    let r := ToolRegistry.execute reg tb.name store uid tb.input
    let result := r.2
    let is_mutating := MUTATING_TOOLS.contains tb.name && jTruthy (result.lookup "mutated")
    let resEv := Event.tool_result tb.name (!hasKey result "error") is_mutating
    let next := runTools reg r.1 uid rest
    (startEv :: resEv :: next.1,
      ToolResultRec.mk tb.id (jsonDumps result) :: next.2.1,
      next.2.2)

/-- Text segments of a model response (agent.py lines 198-202). -/
def textPartsOf (content : List ContentBlock) : List String :=
  content.filterMap (fun b => match b with
    | ContentBlock.text t => some t
    | _ => none)

/-- Tool-use blocks of a model response (agent.py lines 199-204). -/
def toolUseBlocksOf (content : List ContentBlock) : List ToolUseBlock :=
  content.filterMap (fun b => match b with
    | ContentBlock.tool_use i n inp => some (ToolUseBlock.mk i n inp)
    | _ => none)

/-- full_text: the joined text parts, None when there are none
(agent.py line 211). -/
def fullTextOf (content : List ContentBlock) : Option String :=
  if (textPartsOf content).isEmpty then none
  else some (String.intercalate "\n" (textPartsOf content))

/-- tool_calls_data: the persisted descriptors, None when the model
requested no tools (agent.py lines 207-210). -/
def toolCallsDataOf (content : List ContentBlock) : Option (List ToolCallRec) :=
  if (toolUseBlocksOf content).isEmpty then none
  else some ((toolUseBlocksOf content).map (fun tb => ToolCallRec.mk tb.id tb.name tb.input))

/-- The text_delta events of one round: one event when full_text is truthy
(agent.py lines 220-221). -/
def textEventsOf (content : List ContentBlock) : List Event :=
  match strTruthy (fullTextOf content) with
  | some t => [Event.text_delta t]
  | none => []

/-- The persisted assistant message of one round (agent.py lines 213-217). -/
def assistantMsgOf (content : List ContentBlock) : ChatMessage :=
  ⟨Role.assistant, fullTextOf content, toolCallsDataOf content, none⟩

/-- Result of the agent loop from a given point on: events emitted, messages
persisted, item store after tool executions, and number of model calls. -/
structure LoopResult where
  events : List Event
  saved : List ChatMessage
  items : ItemStore
  modelCalls : Nat
deriving DecidableEq, Repr

/-- The agent loop of run_agent (agent.py lines 182-288): fuel is the number
of remaining iterations of `for iteration in range(MAX_ITERATIONS)`, iter the
current iteration index, model the sequence of model responses.  A model
fault emits error then done and returns; otherwise the response is split
into text and tool_use blocks, an assistant message is persisted, truthy
text is streamed, the loop breaks on stop_reason end_turn or no tool use,
and otherwise the tools are executed in order, a tool_result message is
persisted, both turns are appended to the running API message list, and the
loop continues.  The final done of run_agent is included. -/
def agentLoop (model : Nat → ModelResponse) (reg : Registry) (uid : Nat) :
    ItemStore → List ApiTurn → Nat → Nat → LoopResult
  | store, _, _, 0 => ⟨[Event.done], [], store, 0⟩
  | store, api, iter, fuel + 1 =>
    match model iter with
    | ModelResponse.fault m =>
      ⟨[Event.error ("AI service error: " ++ m), Event.done], [], store, 1⟩
    | ModelResponse.ok stop_reason content =>
      if stop_reason == "end_turn" || (toolUseBlocksOf content).isEmpty then
        ⟨textEventsOf content ++ [Event.done], [assistantMsgOf content], store, 1⟩
      else
        let tr := runTools reg store uid (toolUseBlocksOf content)
        let toolResultMsg : ChatMessage := ⟨Role.tool_result, none, none, some tr.2.1⟩
        let api1 := api ++
          [⟨"assistant", ApiContent.blocks
              ((match strTruthy (fullTextOf content) with
                | some t => [ApiBlock.textBlock t]
                | none => []) ++
                (toolUseBlocksOf content).map (fun tb => ApiBlock.toolUse tb.id tb.name tb.input))⟩,
            ⟨"user", ApiContent.blocks
              (tr.2.1.map (fun r => ApiBlock.toolResultBlock r.tool_use_id r.content))⟩]
        let rest := agentLoop model reg uid tr.2.2 api1 (iter + 1) fuel
        ⟨textEventsOf content ++ tr.1 ++ rest.events,
          assistantMsgOf content :: toolResultMsg :: rest.saved,
          rest.items,
          rest.modelCalls + 1⟩

/-- The three stores run_agent touches. -/
structure Db where
  sessions : SessionStore
  messages : List (Nat × ChatMessage)
  items : ItemStore
deriving Repr

/-- Result of one full turn: the SSE events in emission order, the stores
after the turn, and the number of model calls made. -/
structure AgentResult where
  events : List Event
  db : Db
  modelCalls : Nat
deriving Repr

/-- The incoming user message as persisted (agent.py line 167). -/
def userMsgOf (message : String) : ChatMessage := ⟨Role.user, some message, none, none⟩

/-- _load_messages (agent.py lines 95-103) applied after the user message
was appended: the rows of the session in creation order, capped at
MAX_HISTORY_MESSAGES. -/
def historyOf (db : Db) (sid : Nat) (message : String) : List ChatMessage :=
  (((db.messages ++ [(sid, userMsgOf message)]).filter
    (fun p => p.1 == sid)).map Prod.snd).take MAX_HISTORY_MESSAGES

/-- run_agent (agent.py lines 144-293): resolve or create the session, emit
session_id, persist the user message, derive a title if the session has
none, load recent history, convert it, and run the agent loop.  Messages
persisted by the loop are appended to the message store under the session. -/
def run_agent (model : Nat → ModelResponse) (reg : Registry) (message : String)
    (session_id : Option Nat) (db : Db) (user_id : Nat) (now : Int)
    (freshId : Nat) : AgentResult :=
  let sr := _get_or_create_session db.sessions user_id session_id now freshId
  let session := sr.2
  let messages1 := db.messages ++ [(session.id, userMsgOf message)]
  let sessions2 :=
    if (strTruthy session.title).isNone then
      updateFirst (fun (s : ChatSession) => s.id == session.id)
        (fun s => { s with title := some (message.take 100) }) sr.1
    else sr.1
  let lr := agentLoop model reg user_id db.items
    (_db_messages_to_anthropic (historyOf db session.id message)) 0 MAX_ITERATIONS
  ⟨Event.session_id session.id :: lr.events,
    ⟨sessions2, messages1 ++ lr.saved.map (fun m => (session.id, m)), lr.items⟩,
    lr.modelCalls⟩

/-- Recognizer for the done event. -/
def isDoneEv : Event → Bool
  | Event.done => true
  | _ => false

/-- Recognizer for error events. -/
def isErrorEv : Event → Bool
  | Event.error _ => true
  | _ => false

/-- Recognizer for tool_start events. -/
def isStartEv : Event → Bool
  | Event.tool_start _ _ => true
  | _ => false

/-- Recognizer for tool_result events. -/
def isResultEv : Event → Bool
  | Event.tool_result _ _ _ => true
  | _ => false

/-- Every tool_start is immediately followed by a tool_result with the same
tool name, and every tool_result is so preceded; other events pass through. -/
def startsPaired : List Event → Bool
  | [] => true
  | Event.tool_start t _ :: Event.tool_result t1 _ _ :: es => t == t1 && startsPaired es
  | Event.tool_start _ _ :: _ => false
  | Event.tool_result _ _ _ :: _ => false
  | _ :: es => startsPaired es

/-- A sequence made only of adjacent tool_start and tool_result pairs with
matching names. -/
def pairSeq : List Event → Bool
  | [] => true
  | Event.tool_start t _ :: Event.tool_result t1 _ _ :: es => t == t1 && pairSeq es
  | _ => false

/-- Trace of one model round that ran tools: an optional text_delta followed
by the start and result pairs of the tools, in execution order. -/
def isRoundTrace : List Event → Bool
  | Event.text_delta _ :: es => pairSeq es
  | es => pairSeq es

/-- Terminal segment of a turn: done alone, an error then done, or the final
text then done. -/
def isTailTrace : List Event → Bool
  | [Event.done] => true
  | [Event.error _, Event.done] => true
  | [Event.text_delta _, Event.done] => true
  | _ => false

/-- Helper: the loop makes at least one model call when fuel remains. -/
theorem agentLoop_calls_pos (model : Nat → ModelResponse) (reg : Registry)
    (uid : Nat) (store : ItemStore) (api : List ApiTurn) (iter fuel : Nat) :
    1 ≤ (agentLoop model reg uid store api iter (fuel + 1)).modelCalls := by
  unfold agentLoop
  cases model iter with
  | fault m => simp
  | ok stop content =>
    simp only []
    split
    · simp
    · simp

/-- C4: for every registered handler and every input, a raised handler
exception is caught at the ToolRegistry.execute boundary and converted to a
dict of the shape (error, message); execute itself is a total function, so
it never raises and a handler fault cannot crash the agent loop. -/
theorem execute_catches_handler_fault (reg : Registry) (name : String)
    (tool : ToolEntry) (db : ItemStore) (uid : Nat) (input : JDict) (m : String)
    (hlook : reg.lookup name = some tool)
    (hfault : tool.handler db uid input = HandlerOutcome.fault m) :
    ToolRegistry.execute reg name db uid input = (db, [("error", JVal.s m)]) := by
  unfold ToolRegistry.execute
  rw [hlook]
  dsimp only
  rw [hfault]

/-- Registry entry whose handler always raises, for the witness. -/
def faultyEntry : ToolEntry :=
  ⟨"faulty", fun _ _ _ => HandlerOutcome.fault "kaboom", ["assistant"]⟩

/-- One-entry registry holding the raising handler. -/
def faultyReg : Registry := [("explode", faultyEntry)]

/-- Witness for C4 at a concrete registry, store, and input. -/
theorem execute_catches_handler_fault_witness :
    ToolRegistry.execute faultyReg "explode" [] 1 [] = ([], [("error", JVal.s "kaboom")]) :=
  execute_catches_handler_fault faultyReg "explode" faultyEntry [] 1 [] "kaboom" rfl rfl

/-- The mark-complete handler wrapped as a registry entry, with the clock
fixed by the caller. -/
def mark_complete_tool (now : Int) : Handler := fun db uid input =>
  let r := handle_mark_complete now db uid input
  HandlerOutcome.ok r.1 r.2

/-- A registry as register_all_tools builds it, restricted to the embedded
handler. -/
def sampleRegistry : Registry :=
  ToolRegistry.register [] "mark_complete" "mark_complete" (mark_complete_tool 0) none

/-- Counterexample for C3: on a name absent from the registry, execute does
not return the mapping (error, "unknown tool"); the message is
"Unknown tool: " followed by the requested name. -/
theorem execute_unknown_tool_counterexample :
    (ToolRegistry.execute sampleRegistry "frobnicate" [] 1 []).2
        ≠ [("error", JVal.s "unknown tool")] ∧
    (ToolRegistry.execute sampleRegistry "frobnicate" [] 1 []).2
        = [("error", JVal.s "Unknown tool: frobnicate")] := by
  constructor
  · decide
  · decide

/-- C3 amended: for every tool name not present in the registry, execute
returns the mapping (error, "Unknown tool: name") without raising (execute
is total); when the loop executes such a request it emits a tool_result
event with success false and mutated false, and a round that requested
tools and did not stop naturally always continues to another model call
rather than aborting the turn. -/
theorem execute_unknown_tool (reg : Registry) (db : ItemStore) (uid : Nat)
    (tb : ToolUseBlock) (rest : List ToolUseBlock)
    (hlook : reg.lookup tb.name = none) :
    ToolRegistry.execute reg tb.name db uid tb.input
        = (db, [("error", JVal.s ("Unknown tool: " ++ tb.name))]) ∧
    (runTools reg db uid (tb :: rest)).1 =
      Event.tool_start tb.name (friendly_names tb.name) ::
        Event.tool_result tb.name false false :: (runTools reg db uid rest).1 ∧
    ∀ (model : Nat → ModelResponse) (api : List ApiTurn) (iter fuel : Nat)
      (stop : String) (content : List ContentBlock),
      model iter = ModelResponse.ok stop content →
      stop ≠ "end_turn" →
      toolUseBlocksOf content ≠ [] →
      2 ≤ (agentLoop model reg uid db api iter (fuel + 2)).modelCalls := by
  have hexec : ToolRegistry.execute reg tb.name db uid tb.input
      = (db, [("error", JVal.s ("Unknown tool: " ++ tb.name))]) := by
    unfold ToolRegistry.execute
    rw [hlook]
  refine ⟨hexec, ?_, ?_⟩
  · have hlk : List.lookup "mutated" [("error", JVal.s ("Unknown tool: " ++ tb.name))] = none := rfl
    have hke : hasKey [("error", JVal.s ("Unknown tool: " ++ tb.name))] "error" = true := rfl
    simp only [runTools]
    rw [hexec]
    simp [hke, hlk, jTruthy]
  · intro model api iter fuel stop content hm hstop hblocks
    show 2 ≤ (agentLoop model reg uid db api iter (fuel + 1 + 1)).modelCalls
    unfold agentLoop
    rw [hm]
    dsimp only
    have hc : (stop == "end_turn" || (toolUseBlocksOf content).isEmpty) = false := by
      simp only [Bool.or_eq_false_iff]
      constructor
      · exact beq_eq_false_iff_ne.mpr hstop
      · simpa using hblocks
    rw [hc]
    simp only [Bool.false_eq_true, if_false]
    exact Nat.add_le_add_right (agentLoop_calls_pos _ _ _ _ _ _ _) 1

/-- Model stub that always requests one unregistered tool. -/
def unknownToolModel : Nat → ModelResponse :=
  fun _ => ModelResponse.ok "tool_use" [ContentBlock.tool_use "t1" "frobnicate" []]

/-- Witness for the amended C3 at a concrete registry and model stub. -/
theorem execute_unknown_tool_witness :
    ToolRegistry.execute sampleRegistry "frobnicate" [] 1 []
        = ([], [("error", JVal.s ("Unknown tool: " ++ "frobnicate"))]) ∧
    2 ≤ (agentLoop unknownToolModel sampleRegistry 1 [] [] 0 2).modelCalls := by
  have h := execute_unknown_tool sampleRegistry [] 1 ⟨"t1", "frobnicate", []⟩ [] rfl
  exact ⟨h.1, h.2.2 unknownToolModel [] 0 0 "tool_use"
    [ContentBlock.tool_use "t1" "frobnicate" []] rfl (by decide) (by decide)⟩

/-- Helper: updating the first row the predicate selects commutes with
looking it up again, when the update does not change the selected keys. -/
theorem find?_updateFirst (p : α → Bool) (f : α → α) (l : List α)
    (hf : ∀ x, p (f x) = p x) :
    List.find? p (updateFirst p f l) = (List.find? p l).map f := by
  induction l with
  | nil => simp [updateFirst]
  | cons x xs ih =>
    by_cases hx : p x = true
    · rw [updateFirst, if_pos hx, List.find?_cons_of_pos _ ((hf x).trans hx),
        List.find?_cons_of_pos _ hx]
      rfl
    · have hx0 : p x = false := by
        cases h : p x
        · rfl
        · exact absurd h hx
      rw [updateFirst, if_neg hx, List.find?_cons_of_neg _ hx,
        List.find?_cons_of_neg _ hx, ih]

/-- Helper: the mark-complete field updates never change the id or the
owner of a row. -/
theorem markCompleteUpdate_keys (now : Int) (c : Bool) (x : Item) :
    (markCompleteUpdate now c x).id = x.id ∧
    (markCompleteUpdate now c x).user_id = x.user_id := by
  unfold markCompleteUpdate
  dsimp only
  split
  · split
    · exact ⟨rfl, rfl⟩
    · exact ⟨rfl, rfl⟩
  · split
    · split
      · exact ⟨rfl, rfl⟩
      · exact ⟨rfl, rfl⟩
    · exact ⟨rfl, rfl⟩

/-- C9: the mark-complete tool keeps the notification fields consistent.
For an item owned by the caller, marking it complete when its notification
frequency is recurring (weekly, monthly or daily) clears recurring
notifications: notification_enabled becomes false and next_notification_at
is cleared.  Marking it incomplete when a future notification date remains
restores them: notification_enabled becomes true and next_notification_at
is set back to that date. -/
theorem mark_complete_notification_consistency (db : ItemStore) (uid iid : Nat)
    (item : Item) (now : Int)
    (hfound : findItem db iid uid = some item) :
    ((item.notification_frequency = "weekly" ∨ item.notification_frequency = "monthly"
        ∨ item.notification_frequency = "daily") →
      findItem (handle_mark_complete now db uid
          [("item_id", JVal.nat iid), ("completed", JVal.b true)]).1 iid uid =
        some { item with
          is_completed := true,
          completed_at := some now,
          notification_enabled := false,
          next_notification_at := none }) ∧
    (∀ d : Int, item.notification_date = some d → now < d →
      findItem (handle_mark_complete now db uid
          [("item_id", JVal.nat iid), ("completed", JVal.b false)]).1 iid uid =
        some { item with
          is_completed := false,
          completed_at := none,
          notification_enabled := true,
          next_notification_at := some d }) := by
  have hstep : ∀ c : Bool, findItem (handle_mark_complete now db uid
      [("item_id", JVal.nat iid), ("completed", JVal.b c)]).1 iid uid
      = some (markCompleteUpdate now c item) := by
    intro c
    have hcomp : ("completed" == "item_id") = false := rfl
    have h1 : ("item_id" == "item_id") = true := rfl
    have h2 : ("completed" == "completed") = true := rfl
    unfold handle_mark_complete
    simp only [List.lookup, hcomp, h1, h2]
    rw [hfound]
    dsimp only
    unfold findItem at hfound ⊢
    rw [find?_updateFirst _ _ _ (fun x => by
      rw [(markCompleteUpdate_keys now c x).1, (markCompleteUpdate_keys now c x).2]),
      hfound]
    rfl
  constructor
  · intro hfreq
    rw [hstep true]
    rcases hfreq with h | h | h <;> simp [markCompleteUpdate, h]
  · intro d hd hgt
    rw [hstep false]
    simp [markCompleteUpdate, hd, hgt]

/-- Concrete recurring item for the C9 witness. -/
def weeklyItem : Item := ⟨1, 7, "buy milk", false, none, some 100, "weekly", true, some 100⟩

/-- Witness for C9: completing the item clears its notification fields, and
un-completing it with the future date 100 at time 50 restores them. -/
theorem mark_complete_notification_consistency_witness :
    findItem (handle_mark_complete 50 [weeklyItem] 7
        [("item_id", JVal.nat 1), ("completed", JVal.b true)]).1 1 7 =
      some { weeklyItem with
        is_completed := true,
        completed_at := some 50,
        notification_enabled := false,
        next_notification_at := none } ∧
    findItem (handle_mark_complete 50 [weeklyItem] 7
        [("item_id", JVal.nat 1), ("completed", JVal.b false)]).1 1 7 =
      some { weeklyItem with
        is_completed := false,
        completed_at := none,
        notification_enabled := true,
        next_notification_at := some 100 } := by
  have h := mark_complete_notification_consistency [weeklyItem] 7 1 weeklyItem 50 rfl
  exact ⟨h.1 (Or.inl rfl), h.2 100 rfl (by norm_num)⟩

/-- C7: _get_or_create_session always returns a session owned by the
caller and is total (never a NotFound failure).  When a session id is
supplied and resolves to a session owned by the caller, that session is
returned with its last-active timestamp touched and the store only has
that timestamp updated; in every other case (no id, id not found, or id
owned by a different user) a brand-new session owned by the caller is
created, appended, and returned. -/
theorem get_or_create_session_spec (db : SessionStore) (uid : Nat)
    (session_id : Option Nat) (now : Int) (freshId : Nat) :
    (_get_or_create_session db uid session_id now freshId).2.user_id = uid ∧
    (∀ sid s0, session_id = some sid →
      db.find? (fun s => s.id == sid && s.user_id == uid) = some s0 →
      (_get_or_create_session db uid session_id now freshId).2
          = { s0 with last_active_at := now } ∧
      (_get_or_create_session db uid session_id now freshId).1
          = updateFirst (fun t => t.id == sid && t.user_id == uid)
              (fun t => { t with last_active_at := now }) db) ∧
    ((∀ sid, session_id = some sid →
        db.find? (fun s => s.id == sid && s.user_id == uid) = none) →
      (_get_or_create_session db uid session_id now freshId).2
          = newChatSession freshId uid now ∧
      (_get_or_create_session db uid session_id now freshId).1
          = db ++ [newChatSession freshId uid now]) := by
  cases session_id with
  | none =>
    refine ⟨rfl, ?_, ?_⟩
    · intro sid s0 h
      exact Option.noConfusion h
    · intro _
      exact ⟨rfl, rfl⟩
  | some sid =>
    cases hf : db.find? (fun s => s.id == sid && s.user_id == uid) with
    | none =>
      have e1 : _get_or_create_session db uid (some sid) now freshId
          = (db ++ [newChatSession freshId uid now], newChatSession freshId uid now) := by
        unfold _get_or_create_session
        dsimp only
        rw [hf]
      refine ⟨?_, ?_, ?_⟩
      · rw [e1]
        rfl
      · intro sid' s0 heq hfind
        injection heq with h
        subst h
        rw [hf] at hfind
        exact Option.noConfusion hfind
      · intro _
        exact ⟨by rw [e1], by rw [e1]⟩
    | some s =>
      have e1 : _get_or_create_session db uid (some sid) now freshId
          = (updateFirst (fun t => t.id == sid && t.user_id == uid)
              (fun t => { t with last_active_at := now }) db,
            { s with last_active_at := now }) := by
        unfold _get_or_create_session
        dsimp only
        rw [hf]
      have hps := List.find?_some hf
      have hsu : s.user_id = uid := by
        have hand := (Bool.and_eq_true _ _).mp hps
        exact eq_of_beq hand.2
      refine ⟨?_, ?_, ?_⟩
      · rw [e1]
        exact hsu
      · intro sid' s0 heq hfind
        injection heq with h
        subst h
        rw [hf] at hfind
        injection hfind with h2
        subst h2
        exact ⟨by rw [e1], by rw [e1]⟩
      · intro hnone
        have hn := hnone sid rfl
        rw [hf] at hn
        exact Option.noConfusion hn

/-- Concrete session row for the C7 witness. -/
def sess1 : ChatSession := ⟨5, 7, some "t", "assistant", 0⟩

/-- Witness for C7: the owner gets the touched session back; a different
caller supplying the same id gets a brand-new session instead of NotFound. -/
theorem get_or_create_session_spec_witness :
    (_get_or_create_session [sess1] 7 (some 5) 99 11).2
        = { sess1 with last_active_at := 99 } ∧
    (_get_or_create_session [sess1] 9 (some 5) 99 11).2 = newChatSession 11 9 99 := by
  have ha := get_or_create_session_spec [sess1] 7 (some 5) 99 11
  have hb := get_or_create_session_spec [sess1] 9 (some 5) 99 11
  refine ⟨(ha.2.1 5 sess1 rfl rfl).1, (hb.2.2 ?_).1⟩
  intro sid h
  injection h with h1
  subst h1
  rfl

/-- Counterexample for C5: a persisted user message with no text content
and no descriptors is not skipped by the Transcript Converter; it is mapped
to a user turn with empty string content. -/
theorem empty_user_message_not_skipped :
    _db_messages_to_anthropic [⟨Role.user, none, none, none⟩] ≠ [] ∧
    _db_messages_to_anthropic [⟨Role.user, none, none, none⟩]
        = [⟨"user", ApiContent.text ""⟩] := by
  constructor
  · decide
  · decide

/-- C5 amended: a persisted message whose text content is absent and whose
tool-call and tool-result lists are absent or empty produces no model-API
turn when its role is assistant or tool_result (skipped, not an empty
turn); a user message is always mapped to a turn, with empty string
content when its text is absent. -/
theorem empty_message_conversion (m : ChatMessage) (rest : List ChatMessage)
    (hc : m.content = none) (htc : m.tool_calls.getD [] = [])
    (htr : m.tool_results.getD [] = []) :
    _db_messages_to_anthropic (m :: rest) =
      (match m.role with
        | Role.user => [ApiTurn.mk "user" (ApiContent.text "")]
        | Role.assistant => []
        | Role.tool_result => []) ++ _db_messages_to_anthropic rest := by
  cases hr : m.role with
  | user =>
    simp [_db_messages_to_anthropic, hr, hc]
  | assistant =>
    simp [_db_messages_to_anthropic, hr, hc, htc]
  | tool_result =>
    simp [_db_messages_to_anthropic, hr, htr]

/-- Witness for the amended C5: an empty assistant message and an empty
tool_result message are skipped, an empty user message is not. -/
theorem empty_message_conversion_witness :
    _db_messages_to_anthropic [⟨Role.assistant, none, none, none⟩] = [] ∧
    _db_messages_to_anthropic [⟨Role.tool_result, none, none, none⟩] = [] ∧
    _db_messages_to_anthropic [⟨Role.user, none, none, none⟩]
        = [⟨"user", ApiContent.text ""⟩] := by
  refine ⟨?_, ?_, ?_⟩
  · exact empty_message_conversion ⟨Role.assistant, none, none, none⟩ [] rfl rfl rfl
  · exact empty_message_conversion ⟨Role.tool_result, none, none, none⟩ [] rfl rfl rfl
  · exact empty_message_conversion ⟨Role.user, none, none, none⟩ [] rfl rfl rfl

/-- C2: a model-call fault on any iteration makes the loop emit an error
event followed by done and stop the turn immediately: exactly one model
call happens from that point on (so no retry and no further model call),
no tool is executed, no message is persisted, and the item store is left
untouched. -/
theorem model_fault_aborts_turn (model : Nat → ModelResponse) (reg : Registry)
    (uid : Nat) (store : ItemStore) (api : List ApiTurn) (iter fuel : Nat) (m : String)
    (hm : model iter = ModelResponse.fault m) :
    agentLoop model reg uid store api iter (fuel + 1) =
      ⟨[Event.error ("AI service error: " ++ m), Event.done], [], store, 1⟩ := by
  unfold agentLoop
  rw [hm]

/-- Witness for C2 with a model stub that always faults. -/
theorem model_fault_aborts_turn_witness :
    agentLoop (fun _ => ModelResponse.fault "boom") [] 1 [] [] 0 MAX_ITERATIONS =
      ⟨[Event.error ("AI service error: " ++ "boom"), Event.done], [], [], 1⟩ :=
  model_fault_aborts_turn (fun _ => ModelResponse.fault "boom") [] 1 [] [] 0 9 "boom" rfl

/-- C10: when a response has stop reason end_turn but also contains
tool-use blocks, the loop persists the assistant message carrying the
tool-call descriptors and then stops the turn without executing any of
them: the remaining events are the optional text and done with no
tool_start or tool_result among them, no tool_result message is appended,
and the item store is untouched; the persisted transcript thus ends with
an assistant message whose tool calls are never answered. -/
theorem end_turn_with_tools_not_executed (model : Nat → ModelResponse)
    (reg : Registry) (uid : Nat) (store : ItemStore) (api : List ApiTurn)
    (iter fuel : Nat) (content : List ContentBlock)
    (hm : model iter = ModelResponse.ok "end_turn" content)
    (hblocks : toolUseBlocksOf content ≠ []) :
    agentLoop model reg uid store api iter (fuel + 1) =
      ⟨textEventsOf content ++ [Event.done], [assistantMsgOf content], store, 1⟩ ∧
    (assistantMsgOf content).tool_calls
        = some ((toolUseBlocksOf content).map (fun tb => ToolCallRec.mk tb.id tb.name tb.input)) ∧
    (∀ e ∈ textEventsOf content ++ [Event.done],
      isStartEv e = false ∧ isResultEv e = false) := by
  refine ⟨?_, ?_, ?_⟩
  · unfold agentLoop
    rw [hm]
    dsimp only
    rw [if_pos (by simp)]
  · unfold assistantMsgOf toolCallsDataOf
    dsimp only
    rw [if_neg]
    simp only [List.isEmpty_eq_true]
    exact hblocks
  · intro e he
    unfold textEventsOf at he
    cases hft : strTruthy (fullTextOf content) with
    | some t =>
      rw [hft] at he
      simp only [List.cons_append, List.nil_append, List.mem_cons,
        List.mem_singleton] at he
      rcases he with h | h | h
      · subst h
        exact ⟨rfl, rfl⟩
      · subst h
        exact ⟨rfl, rfl⟩
      · cases h
    | none =>
      rw [hft] at he
      simp only [List.nil_append, List.mem_singleton] at he
      subst he
      exact ⟨rfl, rfl⟩

/-- Model stub that stops naturally while still requesting a tool. -/
def endTurnToolModel : Nat → ModelResponse :=
  fun _ => ModelResponse.ok "end_turn" [ContentBlock.tool_use "t1" "search_items" []]

/-- Witness for C10: the turn ends with done, the assistant message keeps
the unanswered descriptor, and no tool events are emitted. -/
theorem end_turn_with_tools_not_executed_witness :
    agentLoop endTurnToolModel sampleRegistry 1 [] [] 0 MAX_ITERATIONS =
      ⟨[Event.done], [⟨Role.assistant, none, some [⟨"t1", "search_items", []⟩], none⟩],
        [], 1⟩ := by
  have h := end_turn_with_tools_not_executed endTurnToolModel sampleRegistry 1 [] [] 0 9
    [ContentBlock.tool_use "t1" "search_items" []] rfl (by decide)
  exact h.1.trans (by decide)

/-- Helper: event counts of one tool round: no done, no error, one
tool_start and one tool_result per requested block. -/
theorem runTools_counts (reg : Registry) (uid : Nat)
    (blocks : List ToolUseBlock) : ∀ store : ItemStore,
    ((runTools reg store uid blocks).1.countP isDoneEv = 0) ∧
    ((runTools reg store uid blocks).1.countP isErrorEv = 0) ∧
    ((runTools reg store uid blocks).1.countP isStartEv = blocks.length) ∧
    ((runTools reg store uid blocks).1.countP isResultEv = blocks.length) := by
  induction blocks with
  | nil =>
    intro store
    simp [runTools]
  | cons tb rest ih =>
    intro store
    have h := ih (ToolRegistry.execute reg tb.name store uid tb.input).1
    simp only [runTools, List.countP_cons, isDoneEv, isErrorEv, isStartEv, isResultEv,
      List.length_cons]
    refine ⟨?_, ?_, ?_, ?_⟩
    · rw [h.1]
      simp
    · rw [h.2.1]
      simp
    · rw [h.2.2.1]
      simp
    · rw [h.2.2.2]
      simp

/-- Helper: the optional text event of a round is neither done, error, nor
a tool event. -/
theorem textEventsOf_counts (content : List ContentBlock) :
    ((textEventsOf content).countP isDoneEv = 0) ∧
    ((textEventsOf content).countP isErrorEv = 0) ∧
    ((textEventsOf content).countP isStartEv = 0) ∧
    ((textEventsOf content).countP isResultEv = 0) := by
  unfold textEventsOf
  cases strTruthy (fullTextOf content) <;>
    simp [isDoneEv, isErrorEv, isStartEv, isResultEv]

/-- Helper: loop invariant: exactly one done event, it is last, at most
fuel model calls, and no error event when the model never faults. -/
theorem agentLoop_done_spec (model : Nat → ModelResponse) (reg : Registry)
    (uid : Nat) (fuel : Nat) :
    ∀ (store : ItemStore) (api : List ApiTurn) (iter : Nat),
      ((agentLoop model reg uid store api iter fuel).events.countP isDoneEv = 1) ∧
      ((agentLoop model reg uid store api iter fuel).events.getLast? = some Event.done) ∧
      ((agentLoop model reg uid store api iter fuel).modelCalls ≤ fuel) ∧
      ((∀ j m, model j ≠ ModelResponse.fault m) →
        (agentLoop model reg uid store api iter fuel).events.countP isErrorEv = 0) := by
  induction fuel with
  | zero =>
    intro store api iter
    refine ⟨?_, ?_, ?_, fun _ => ?_⟩ <;> simp [agentLoop, isDoneEv, isErrorEv]
  | succ fuel ih =>
    intro store api iter
    cases hm : model iter with
    | fault m =>
      have e1 : agentLoop model reg uid store api iter (fuel + 1) =
          ⟨[Event.error ("AI service error: " ++ m), Event.done], [], store, 1⟩ := by
        unfold agentLoop
        rw [hm]
      rw [e1]
      refine ⟨by simp [isDoneEv, isErrorEv], by simp, by simp, fun hnf => ?_⟩
      exact absurd hm (hnf iter m)
    | ok stop content =>
      cases hcond : (stop == "end_turn" || (toolUseBlocksOf content).isEmpty) with
      | true =>
        have e1 : agentLoop model reg uid store api iter (fuel + 1) =
            ⟨textEventsOf content ++ [Event.done], [assistantMsgOf content], store, 1⟩ := by
          unfold agentLoop
          rw [hm]
          dsimp only
          rw [if_pos hcond]
        rw [e1]
        have htext := textEventsOf_counts content
        refine ⟨?_, ?_, by simp, fun _ => ?_⟩
        · dsimp only
          rw [List.countP_append, htext.1]
          simp [isDoneEv]
        · dsimp only
          rw [List.getLast?_append_of_ne_nil _ (by simp)]
          rfl
        · dsimp only
          rw [List.countP_append, htext.2.1]
          simp [isErrorEv]
      | false =>
        have hfalse : ¬(stop == "end_turn" || (toolUseBlocksOf content).isEmpty) = true := by
          rw [hcond]
          exact Bool.false_ne_true
        unfold agentLoop
        rw [hm]
        dsimp only
        rw [if_neg hfalse]
        dsimp only
        have htext := textEventsOf_counts content
        have htools := runTools_counts reg uid (toolUseBlocksOf content) store
        have hrest := ih (runTools reg store uid (toolUseBlocksOf content)).2.2
          (api ++ [⟨"assistant", ApiContent.blocks ((match strTruthy (fullTextOf content) with
              | some t => [ApiBlock.textBlock t]
              | none => []) ++ (toolUseBlocksOf content).map
                (fun tb => ApiBlock.toolUse tb.id tb.name tb.input))⟩,
            ⟨"user", ApiContent.blocks ((runTools reg store uid (toolUseBlocksOf content)).2.1.map
              (fun r => ApiBlock.toolResultBlock r.tool_use_id r.content))⟩])
          (iter + 1)
        have hne : (agentLoop model reg uid (runTools reg store uid (toolUseBlocksOf content)).2.2
            (api ++ [⟨"assistant", ApiContent.blocks ((match strTruthy (fullTextOf content) with
                | some t => [ApiBlock.textBlock t]
                | none => []) ++ (toolUseBlocksOf content).map
                  (fun tb => ApiBlock.toolUse tb.id tb.name tb.input))⟩,
              ⟨"user", ApiContent.blocks ((runTools reg store uid (toolUseBlocksOf content)).2.1.map
                (fun r => ApiBlock.toolResultBlock r.tool_use_id r.content))⟩])
            (iter + 1) fuel).events ≠ [] := by
          intro h0
          have h1 := hrest.1
          rw [h0] at h1
          simp at h1
        refine ⟨?_, ?_, ?_, fun hnf => ?_⟩
        · rw [List.countP_append, List.countP_append, htext.1, (htools).1, hrest.1]
        · rw [List.getLast?_append_of_ne_nil _ (by simp [hne])]
          exact hrest.2.1
        · have h3 := hrest.2.2.1
          omega
        · rw [List.countP_append, List.countP_append, htext.2.1, (htools).2.1,
            hrest.2.2.2 hnf]

/-- Helper: dropping the head keeps the last element when the tail is
nonempty. -/
theorem getLast?_cons_of_ne_nil (a : α) (l : List α) (h : l ≠ []) :
    (a :: l).getLast? = l.getLast? := by
  cases l with
  | nil => exact absurd rfl h
  | cons b t => simp [List.getLast?_cons_cons]

/-- C1: for every sequence of model responses, run_agent emits exactly one
done event, that event is the last of the stream, and at most
MAX_ITERATIONS model calls are made; when no model response is a fault (in
particular when the loop stops only because the iteration budget is
exhausted) no error event is emitted and the terminal event is still done. -/
theorem run_agent_terminal_done (model : Nat → ModelResponse) (reg : Registry)
    (message : String) (session_id : Option Nat) (db : Db) (uid : Nat)
    (now : Int) (freshId : Nat) :
    ((run_agent model reg message session_id db uid now freshId).events.countP isDoneEv = 1) ∧
    ((run_agent model reg message session_id db uid now freshId).events.getLast?
        = some Event.done) ∧
    ((run_agent model reg message session_id db uid now freshId).modelCalls ≤ MAX_ITERATIONS) ∧
    ((∀ j m, model j ≠ ModelResponse.fault m) →
      (run_agent model reg message session_id db uid now freshId).events.countP isErrorEv
        = 0) := by
  have hspec := agentLoop_done_spec model reg uid MAX_ITERATIONS db.items
    (_db_messages_to_anthropic
      (historyOf db (_get_or_create_session db.sessions uid session_id now freshId).2.id
        message)) 0
  unfold run_agent
  dsimp only
  refine ⟨?_, ?_, ?_, fun hnf => ?_⟩
  · rw [List.countP_cons, hspec.1]
    simp [isDoneEv]
  · rw [getLast?_cons_of_ne_nil _ _ (by
      intro h0
      have h1 := hspec.1
      rw [h0] at h1
      simp at h1)]
    exact hspec.2.1
  · exact hspec.2.2.1
  · rw [List.countP_cons, hspec.2.2.2 hnf]
    simp [isErrorEv]

/-- Witness for C1: a model stub that always requests another tool call
exhausts the budget; the turn still ends with a single terminal done and
no error event, after MAX_ITERATIONS model calls. -/
theorem run_agent_terminal_done_witness :
    ((run_agent unknownToolModel sampleRegistry "hello" none ⟨[], [], []⟩ 1 0 5).events.countP
        isDoneEv = 1) ∧
    ((run_agent unknownToolModel sampleRegistry "hello" none ⟨[], [], []⟩ 1 0 5).events.getLast?
        = some Event.done) ∧
    ((run_agent unknownToolModel sampleRegistry "hello" none ⟨[], [], []⟩ 1 0 5).modelCalls
        ≤ MAX_ITERATIONS) ∧
    ((run_agent unknownToolModel sampleRegistry "hello" none ⟨[], [], []⟩ 1 0 5).events.countP
        isErrorEv = 0) := by
  have h := run_agent_terminal_done unknownToolModel sampleRegistry "hello" none ⟨[], [], []⟩ 1 0 5
  exact ⟨h.1, h.2.1, h.2.2.1, h.2.2.2 (by
    intro j m
    simp [unknownToolModel])⟩

/-- Helper: one executed round is an alternation of adjacent start and
result pairs with matching tool names. -/
theorem runTools_pairSeq (reg : Registry) (uid : Nat) (blocks : List ToolUseBlock) :
    ∀ store, pairSeq (runTools reg store uid blocks).1 = true := by
  induction blocks with
  | nil =>
    intro store
    rfl
  | cons tb rest ih =>
    intro store
    simp only [runTools]
    simp [pairSeq, ih]

/-- Helper: a pair alternation prepended to a trace leaves the pairing
check of the remainder unchanged. -/
theorem startsPaired_append_of_pairSeq (es : List Event) :
    ∀ l, pairSeq l = true → startsPaired (l ++ es) = startsPaired es := by
  intro l
  induction l using pairSeq.induct with
  | case1 =>
    intro _
    rfl
  | case2 t msg t1 ok mflag rest ih =>
    intro h
    simp only [pairSeq, Bool.and_eq_true, beq_iff_eq] at h
    rw [List.cons_append, List.cons_append, startsPaired, ih h.2, h.1]
    simp
  | case3 l h1 h2 =>
    intro h
    rw [pairSeq] at h
    · exact absurd h (by simp)
    · exact h1
    · exact h2

/-- Helper: the optional text event does not affect the pairing check. -/
theorem startsPaired_textEvents (content : List ContentBlock) (l : List Event) :
    startsPaired (textEventsOf content ++ l) = startsPaired l := by
  unfold textEventsOf
  cases strTruthy (fullTextOf content) with
  | none => rfl
  | some t =>
    rw [List.cons_append, List.nil_append, startsPaired]
    all_goals simp

/-- Helper: pairing invariant of the loop: in every emitted trace each
tool_start is immediately followed by its tool_result with the same name,
and no tool_result appears without its start right before it. -/
theorem agentLoop_startsPaired (model : Nat → ModelResponse) (reg : Registry)
    (uid : Nat) (fuel : Nat) :
    ∀ (store : ItemStore) (api : List ApiTurn) (iter : Nat),
      startsPaired (agentLoop model reg uid store api iter fuel).events = true := by
  induction fuel with
  | zero =>
    intro store api iter
    rfl
  | succ fuel ih =>
    intro store api iter
    cases hm : model iter with
    | fault m =>
      have e1 : agentLoop model reg uid store api iter (fuel + 1) =
          ⟨[Event.error ("AI service error: " ++ m), Event.done], [], store, 1⟩ := by
        unfold agentLoop
        rw [hm]
      rw [e1]
      rfl
    | ok stop content =>
      cases hcond : (stop == "end_turn" || (toolUseBlocksOf content).isEmpty) with
      | true =>
        have e1 : agentLoop model reg uid store api iter (fuel + 1) =
            ⟨textEventsOf content ++ [Event.done], [assistantMsgOf content], store, 1⟩ := by
          unfold agentLoop
          rw [hm]
          dsimp only
          rw [if_pos hcond]
        rw [e1]
        dsimp only
        rw [startsPaired_textEvents]
        rfl
      | false =>
        have hfalse : ¬(stop == "end_turn" || (toolUseBlocksOf content).isEmpty) = true := by
          rw [hcond]
          exact Bool.false_ne_true
        unfold agentLoop
        rw [hm]
        dsimp only
        rw [if_neg hfalse]
        dsimp only
        rw [List.append_assoc, startsPaired_textEvents,
          startsPaired_append_of_pairSeq _ _ (runTools_pairSeq reg uid (toolUseBlocksOf content) store)]
        exact ih _ _ _

/-- Helper: in every loop trace the number of tool_start events equals the
number of tool_result events. -/
theorem agentLoop_start_result_counts (model : Nat → ModelResponse) (reg : Registry)
    (uid : Nat) (fuel : Nat) :
    ∀ (store : ItemStore) (api : List ApiTurn) (iter : Nat),
      (agentLoop model reg uid store api iter fuel).events.countP isStartEv
        = (agentLoop model reg uid store api iter fuel).events.countP isResultEv := by
  induction fuel with
  | zero =>
    intro store api iter
    rfl
  | succ fuel ih =>
    intro store api iter
    cases hm : model iter with
    | fault m =>
      have e1 : agentLoop model reg uid store api iter (fuel + 1) =
          ⟨[Event.error ("AI service error: " ++ m), Event.done], [], store, 1⟩ := by
        unfold agentLoop
        rw [hm]
      rw [e1]
      rfl
    | ok stop content =>
      cases hcond : (stop == "end_turn" || (toolUseBlocksOf content).isEmpty) with
      | true =>
        have e1 : agentLoop model reg uid store api iter (fuel + 1) =
            ⟨textEventsOf content ++ [Event.done], [assistantMsgOf content], store, 1⟩ := by
          unfold agentLoop
          rw [hm]
          dsimp only
          rw [if_pos hcond]
        rw [e1]
        dsimp only
        have htext := textEventsOf_counts content
        rw [List.countP_append, List.countP_append, htext.2.2.1, htext.2.2.2]
        rfl
      | false =>
        have hfalse : ¬(stop == "end_turn" || (toolUseBlocksOf content).isEmpty) = true := by
          rw [hcond]
          exact Bool.false_ne_true
        unfold agentLoop
        rw [hm]
        dsimp only
        rw [if_neg hfalse]
        dsimp only
        have htext := textEventsOf_counts content
        have htools := runTools_counts reg uid (toolUseBlocksOf content) store
        rw [List.countP_append, List.countP_append, List.countP_append, List.countP_append,
          htext.2.2.1, htext.2.2.2, htools.2.2.1, htools.2.2.2, ih _ _ (iter + 1)]

/-- Tool names of the tool_start events of a trace, in emission order. -/
def toolStartNames (es : List Event) : List String :=
  es.filterMap (fun e => match e with
    | Event.tool_start t _ => some t
    | _ => none)

/-- Tool names of the tool_result events of a trace, in emission order. -/
def toolResultNames (es : List Event) : List String :=
  es.filterMap (fun e => match e with
    | Event.tool_result t _ _ => some t
    | _ => none)

/-- Helper: one executed round emits its tool_start events, and its
tool_result events, with exactly the names of the requested blocks, in
request order. -/
theorem runTools_names (reg : Registry) (uid : Nat) (blocks : List ToolUseBlock) :
    ∀ store : ItemStore,
      toolStartNames (runTools reg store uid blocks).1
          = blocks.map (fun tb => tb.name) ∧
      toolResultNames (runTools reg store uid blocks).1
          = blocks.map (fun tb => tb.name) := by
  induction blocks with
  | nil =>
    intro store
    exact ⟨rfl, rfl⟩
  | cons tb rest ih =>
    intro store
    have h := ih (ToolRegistry.execute reg tb.name store uid tb.input).1
    simp only [runTools, toolStartNames, toolResultNames, List.filterMap_cons,
      List.map_cons] at h ⊢
    exact ⟨by simp [h.1], by simp [h.2]⟩

/-- Helper: the optional text event carries no tool names. -/
theorem toolNames_textEvents (content : List ContentBlock) (l : List Event) :
    toolStartNames (textEventsOf content ++ l) = toolStartNames l ∧
    toolResultNames (textEventsOf content ++ l) = toolResultNames l := by
  unfold textEventsOf
  cases strTruthy (fullTextOf content) <;>
    simp [toolStartNames, toolResultNames]

/-- Helper: the events of one model round that executed tools form a round
trace: the optional text event followed by the start and result pairs. -/
theorem isRoundTrace_round (content : List ContentBlock) (reg : Registry)
    (store : ItemStore) (uid : Nat) (blocks : List ToolUseBlock) :
    isRoundTrace (textEventsOf content ++ (runTools reg store uid blocks).1) = true := by
  have hp := runTools_pairSeq reg uid blocks store
  unfold textEventsOf
  cases strTruthy (fullTextOf content) with
  | none =>
    rw [List.nil_append]
    cases blocks with
    | nil => exact hp
    | cons tb rest => exact hp
  | some t =>
    rw [List.cons_append, List.nil_append, isRoundTrace]
    exact hp

/-- Helper: every loop trace decomposes into executed rounds followed by a
terminal segment (done alone, error then done, or final text then done);
round j of the decomposition belongs to model call iter + j, and its
tool_start and tool_result names are exactly the names of the tool_use
blocks that response requested, in request order. -/
theorem agentLoop_rounds (model : Nat → ModelResponse) (reg : Registry)
    (uid : Nat) (fuel : Nat) :
    ∀ (store : ItemStore) (api : List ApiTurn) (iter : Nat),
      ∃ (rounds : List (List Event)) (tl : List Event),
        (agentLoop model reg uid store api iter fuel).events = rounds.flatten ++ tl ∧
        (∀ seg ∈ rounds, isRoundTrace seg = true) ∧
        isTailTrace tl = true ∧
        (∀ j (hj : j < rounds.length), ∃ stop content,
          model (iter + j) = ModelResponse.ok stop content ∧
          (stop == "end_turn" || (toolUseBlocksOf content).isEmpty) = false ∧
          toolStartNames (rounds.get ⟨j, hj⟩)
              = (toolUseBlocksOf content).map (fun tb => tb.name) ∧
          toolResultNames (rounds.get ⟨j, hj⟩)
              = (toolUseBlocksOf content).map (fun tb => tb.name)) := by
  induction fuel with
  | zero =>
    intro store api iter
    exact ⟨[], [Event.done], rfl, by simp, rfl, fun j hj => absurd hj (by simp)⟩
  | succ fuel ih =>
    intro store api iter
    cases hm : model iter with
    | fault m =>
      have e1 : agentLoop model reg uid store api iter (fuel + 1) =
          ⟨[Event.error ("AI service error: " ++ m), Event.done], [], store, 1⟩ := by
        unfold agentLoop
        rw [hm]
      exact ⟨[], [Event.error ("AI service error: " ++ m), Event.done],
        by rw [e1]; rfl, by simp, rfl, fun j hj => absurd hj (by simp)⟩
    | ok stop content =>
      cases hcond : (stop == "end_turn" || (toolUseBlocksOf content).isEmpty) with
      | true =>
        have e1 : agentLoop model reg uid store api iter (fuel + 1) =
            ⟨textEventsOf content ++ [Event.done], [assistantMsgOf content], store, 1⟩ := by
          unfold agentLoop
          rw [hm]
          dsimp only
          rw [if_pos hcond]
        refine ⟨[], textEventsOf content ++ [Event.done], by rw [e1]; rfl, by simp, ?_,
          fun j hj => absurd hj (by simp)⟩
        unfold textEventsOf
        cases strTruthy (fullTextOf content) with
        | none => rfl
        | some t => rfl
      | false =>
        have hfalse : ¬(stop == "end_turn" || (toolUseBlocksOf content).isEmpty) = true := by
          rw [hcond]
          exact Bool.false_ne_true
        unfold agentLoop
        rw [hm]
        dsimp only
        rw [if_neg hfalse]
        dsimp only
        obtain ⟨rounds, tl, heq, hrounds, htl, hmodel⟩ := ih
          (runTools reg store uid (toolUseBlocksOf content)).2.2
          (api ++ [⟨"assistant", ApiContent.blocks ((match strTruthy (fullTextOf content) with
              | some t => [ApiBlock.textBlock t]
              | none => []) ++ (toolUseBlocksOf content).map
                (fun tb => ApiBlock.toolUse tb.id tb.name tb.input))⟩,
            ⟨"user", ApiContent.blocks ((runTools reg store uid (toolUseBlocksOf content)).2.1.map
              (fun r => ApiBlock.toolResultBlock r.tool_use_id r.content))⟩])
          (iter + 1)
        refine ⟨(textEventsOf content ++ (runTools reg store uid (toolUseBlocksOf content)).1)
            :: rounds, tl, ?_, ?_, htl, ?_⟩
        · rw [List.flatten_cons, heq]
          simp [List.append_assoc]
        · intro seg hseg
          rcases List.mem_cons.mp hseg with h | h
          · subst h
            exact isRoundTrace_round content reg store uid (toolUseBlocksOf content)
          · exact hrounds seg h
        · intro j hj
          cases j with
          | zero =>
            refine ⟨stop, content, by rw [Nat.add_zero]; exact hm, hcond, ?_, ?_⟩
            · rw [List.get]
              exact (toolNames_textEvents content _).1.trans
                ((runTools_names reg uid (toolUseBlocksOf content) store).1)
            · rw [List.get]
              exact (toolNames_textEvents content _).2.trans
                ((runTools_names reg uid (toolUseBlocksOf content) store).2)
          | succ k =>
            have hk : k < rounds.length := by
              simpa using hj
            obtain ⟨stop1, content1, hm1, hcond1, hs1, hr1⟩ := hmodel k hk
            refine ⟨stop1, content1, ?_, hcond1, ?_, ?_⟩
            · rw [show iter + (k + 1) = iter + 1 + k by omega]
              exact hm1
            · rw [List.get]
              exact hs1
            · rw [List.get]
              exact hr1

/-- C8: within one turn every tool_start is immediately followed by its
tool_result with the same tool name (so no result precedes its start and
nothing interleaves between a start and its result), the total counts of
tool_start and tool_result events are equal, and the stream decomposes as
the session_id event, then one round trace per executed model round (its
optional text_delta followed by its start and result pairs, so all tool
events of a round precede the next model call's text event), then a
terminal segment ending in done; moreover round j belongs to model call j
and its tool_start and tool_result name sequences are exactly the names of
the tool_use blocks that response requested, in request order, so the
tools of one round are executed strictly sequentially in request order. -/
theorem run_agent_tool_event_pairing (model : Nat → ModelResponse) (reg : Registry)
    (message : String) (session_id : Option Nat) (db : Db) (uid : Nat)
    (now : Int) (freshId : Nat) :
    startsPaired (run_agent model reg message session_id db uid now freshId).events = true ∧
    ((run_agent model reg message session_id db uid now freshId).events.countP isStartEv
      = (run_agent model reg message session_id db uid now freshId).events.countP isResultEv) ∧
    ∃ (sid : Nat) (rounds : List (List Event)) (tl : List Event),
      (run_agent model reg message session_id db uid now freshId).events
          = Event.session_id sid :: (rounds.flatten ++ tl) ∧
      (∀ seg ∈ rounds, isRoundTrace seg = true) ∧
      isTailTrace tl = true ∧
      (∀ j (hj : j < rounds.length), ∃ stop content,
        model j = ModelResponse.ok stop content ∧
        (stop == "end_turn" || (toolUseBlocksOf content).isEmpty) = false ∧
        toolStartNames (rounds.get ⟨j, hj⟩)
            = (toolUseBlocksOf content).map (fun tb => tb.name) ∧
        toolResultNames (rounds.get ⟨j, hj⟩)
            = (toolUseBlocksOf content).map (fun tb => tb.name)) := by
  unfold run_agent
  dsimp only
  refine ⟨?_, ?_, ?_⟩
  · exact agentLoop_startsPaired model reg uid MAX_ITERATIONS db.items
      (_db_messages_to_anthropic
        (historyOf db (_get_or_create_session db.sessions uid session_id now freshId).2.id
          message)) 0
  · rw [List.countP_cons, List.countP_cons,
      agentLoop_start_result_counts model reg uid MAX_ITERATIONS db.items
        (_db_messages_to_anthropic
          (historyOf db (_get_or_create_session db.sessions uid session_id now freshId).2.id
            message)) 0]
    rfl
  · obtain ⟨rounds, tl, heq, hrounds, htl, hmodel⟩ := agentLoop_rounds model reg uid
      MAX_ITERATIONS db.items (_db_messages_to_anthropic
        (historyOf db (_get_or_create_session db.sessions uid session_id now freshId).2.id
          message)) 0
    refine ⟨(_get_or_create_session db.sessions uid session_id now freshId).2.id, rounds, tl,
      by rw [heq], hrounds, htl, ?_⟩
    intro j hj
    obtain ⟨stop, content, hmj, hcond, hs, hr⟩ := hmodel j hj
    rw [Nat.zero_add] at hmj
    exact ⟨stop, content, hmj, hcond, hs, hr⟩

/-- Helper: joining a single text segment gives it back. -/
theorem intercalate_singleton (s : String) : String.intercalate "\n" [s] = s := rfl

/-- Helper: extracting tool-use blocks from the rendered tool calls of an
assistant turn recovers the descriptors. -/
theorem filterMap_toolUse_map (l : List ToolCallRec) :
    (l.map (fun tc => ApiBlock.toolUse tc.id tc.name tc.input)).filterMap (fun b => match b with
      | ApiBlock.toolUse i n inp => some (ToolCallRec.mk i n inp)
      | _ => none) = l := by
  induction l with
  | nil => rfl
  | cons a r ih => simp [List.filterMap_cons, ih]

/-- Helper: the rendered tool calls of an assistant turn contain no text
blocks. -/
theorem filterMap_textBlock_map_toolUse (l : List ToolCallRec) :
    (l.map (fun tc => ApiBlock.toolUse tc.id tc.name tc.input)).filterMap (fun b => match b with
      | ApiBlock.textBlock t => some t
      | _ => none) = [] := by
  induction l with
  | nil => rfl
  | cons a r ih => simp [List.filterMap_cons, ih]

/-- Helper: extracting tool-result blocks from a rendered tool_result turn
recovers the descriptors. -/
theorem filterMap_toolResultBlock_map (l : List ToolResultRec) :
    (l.map (fun tr => ApiBlock.toolResultBlock tr.tool_use_id tr.content)).filterMap
      (fun b => match b with
        | ApiBlock.toolResultBlock i c => some (ToolResultRec.mk i c)
        | _ => none) = l := by
  induction l with
  | nil => rfl
  | cons a r ih => simp [List.filterMap_cons, ih]

/-- Helper: the optional descriptor list reconstructed by the reverse
conversion has the same elements as the original list. -/
theorem getD_if_isEmpty (l : List α) :
    (if l.isEmpty then none else some l).getD ([] : List α) = l := by
  cases l <;> simp

/-- Helper: variant of the previous lemma with the emptiness test stated
as equality with the empty list. -/
theorem getD_if_eq_nil [DecidableEq α] (l : List α) :
    (if l = [] then none else some l).getD ([] : List α) = l := by
  by_cases h : l = [] <;> simp [h]

/-- Helper: conversion equation for a user row. -/
theorem db_to_api_user (m : ChatMessage) (rest : List ChatMessage)
    (hrole : m.role = Role.user) :
    _db_messages_to_anthropic (m :: rest)
      = ⟨"user", ApiContent.text (m.content.getD "")⟩ :: _db_messages_to_anthropic rest := by
  simp only [_db_messages_to_anthropic, hrole]

/-- Helper: conversion equation for an assistant row with truthy text. -/
theorem db_to_api_assistant_some (m : ChatMessage) (rest : List ChatMessage) (c : String)
    (hrole : m.role = Role.assistant) (hc : m.content = some c) (hne : (c == "") = false) :
    _db_messages_to_anthropic (m :: rest)
      = ⟨"assistant", ApiContent.blocks (ApiBlock.textBlock c ::
          (m.tool_calls.getD []).map (fun tc => ApiBlock.toolUse tc.id tc.name tc.input))⟩ ::
        _db_messages_to_anthropic rest := by
  simp only [_db_messages_to_anthropic, hrole, hc, hne]
  simp

/-- Helper: conversion equation for an assistant row with no text and at
least one tool call. -/
theorem db_to_api_assistant_none (m : ChatMessage) (rest : List ChatMessage)
    (tc0 : ToolCallRec) (tcs : List ToolCallRec)
    (hrole : m.role = Role.assistant) (hc : m.content = none)
    (hcalls : m.tool_calls.getD [] = tc0 :: tcs) :
    _db_messages_to_anthropic (m :: rest)
      = ⟨"assistant", ApiContent.blocks
          ((tc0 :: tcs).map (fun tc => ApiBlock.toolUse tc.id tc.name tc.input))⟩ ::
        _db_messages_to_anthropic rest := by
  simp only [_db_messages_to_anthropic, hrole, hc, hcalls]
  simp

/-- Helper: conversion equation for a tool_result row with at least one
descriptor. -/
theorem db_to_api_tool_result (m : ChatMessage) (rest : List ChatMessage)
    (r0 : ToolResultRec) (rs : List ToolResultRec)
    (hrole : m.role = Role.tool_result)
    (hres : m.tool_results.getD [] = r0 :: rs) :
    _db_messages_to_anthropic (m :: rest)
      = ⟨"user", ApiContent.blocks
          ((r0 :: rs).map (fun tr => ApiBlock.toolResultBlock tr.tool_use_id tr.content))⟩ ::
        _db_messages_to_anthropic rest := by
  simp only [_db_messages_to_anthropic, hrole, hres]
  simp

/-- Helper: reverse-conversion equation for a user turn with text. -/
theorem api_to_db_user_text (s : String) (rest : List ApiTurn) :
    anthropic_to_db_spec (⟨"user", ApiContent.text s⟩ :: rest)
      = ⟨Role.user, some s, none, none⟩ :: anthropic_to_db_spec rest := rfl

/-- Helper: reverse-conversion equation for a user turn of blocks. -/
theorem api_to_db_user_blocks (bs : List ApiBlock) (rest : List ApiTurn) :
    anthropic_to_db_spec (⟨"user", ApiContent.blocks bs⟩ :: rest)
      = ⟨Role.tool_result, none, none, some (bs.filterMap (fun b => match b with
          | ApiBlock.toolResultBlock i c => some (ToolResultRec.mk i c)
          | _ => none))⟩ :: anthropic_to_db_spec rest := rfl

/-- Helper: reverse-conversion equation for an assistant turn. -/
theorem api_to_db_assistant (bs : List ApiBlock) (rest : List ApiTurn) :
    anthropic_to_db_spec (⟨"assistant", ApiContent.blocks bs⟩ :: rest)
      = ⟨Role.assistant,
          (if (bs.filterMap (fun b => match b with
              | ApiBlock.textBlock t => some t
              | _ => none)).isEmpty then none
            else some (String.intercalate "\n" (bs.filterMap (fun b => match b with
              | ApiBlock.textBlock t => some t
              | _ => none)))),
          (if (bs.filterMap (fun b => match b with
              | ApiBlock.toolUse i n inp => some (ToolCallRec.mk i n inp)
              | _ => none)).isEmpty then none
            else some (bs.filterMap (fun b => match b with
              | ApiBlock.toolUse i n inp => some (ToolCallRec.mk i n inp)
              | _ => none))), none⟩ :: anthropic_to_db_spec rest := rfl

/-- Helper: the round trip preserves every message that satisfies the
presence conditions, pointwise. -/
theorem transcript_round_trip_aux (msgs : List ChatMessage)
    (hpres : msgs.all msgRoundTrips = true) :
    List.Forall₂ (fun o r => preservesMsg o r = true) msgs
      (anthropic_to_db_spec (_db_messages_to_anthropic msgs)) := by
  induction msgs with
  | nil => exact List.Forall₂.nil
  | cons m rest ih =>
    rw [List.all_cons, Bool.and_eq_true] at hpres
    have ihh := ih hpres.2
    have hm := hpres.1
    cases hrole : m.role with
    | user =>
      simp only [msgRoundTrips, hrole, Bool.and_eq_true, List.isEmpty_eq_true,
        Option.isSome_iff_exists] at hm
      obtain ⟨⟨⟨c, hc⟩, hcalls⟩, hres⟩ := hm
      rw [db_to_api_user m rest hrole, hc, Option.getD_some, api_to_db_user_text]
      refine List.Forall₂.cons ?_ ihh
      simp [preservesMsg, hrole, hc, hcalls, hres]
    | assistant =>
      simp only [msgRoundTrips, hrole, Bool.and_eq_true, List.isEmpty_eq_true,
        bne_iff_ne, Bool.or_eq_true, Bool.not_eq_true, List.isEmpty_eq_false,
        Option.isSome_iff_exists] at hm
      obtain ⟨⟨hne, hor⟩, hres⟩ := hm
      cases hc : m.content with
      | some c =>
        have hcne : (c == "") = false := by
          rw [hc] at hne
          simp only [beq_eq_false_iff_ne]
          intro h0
          exact hne (by rw [h0])
        rw [db_to_api_assistant_some m rest c hrole hc hcne, api_to_db_assistant]
        refine List.Forall₂.cons ?_ ihh
        simp only [List.filterMap_cons, filterMap_textBlock_map_toolUse,
          filterMap_toolUse_map]
        simp [preservesMsg, hrole, hc, hres, getD_if_isEmpty, getD_if_eq_nil,
          intercalate_singleton]
      | none =>
        have hcalls : ∃ tc0 tcs, m.tool_calls.getD [] = tc0 :: tcs := by
          rcases hor with h | h
          · obtain ⟨c, hcc⟩ := h
            rw [hc] at hcc
            exact Option.noConfusion hcc
          · cases hl : m.tool_calls.getD [] with
            | nil =>
              rw [hl] at h
              simp at h
            | cons a b => exact ⟨a, b, rfl⟩
        obtain ⟨tc0, tcs, hcalls⟩ := hcalls
        rw [db_to_api_assistant_none m rest tc0 tcs hrole hc hcalls, api_to_db_assistant]
        refine List.Forall₂.cons ?_ ihh
        simp only [filterMap_textBlock_map_toolUse, filterMap_toolUse_map]
        simp [preservesMsg, hrole, hc, hres, hcalls]
    | tool_result =>
      simp only [msgRoundTrips, hrole, Bool.and_eq_true, List.isEmpty_eq_true,
        Bool.not_eq_true, List.isEmpty_eq_false, Option.isNone_iff_eq_none] at hm
      obtain ⟨⟨hc, hcalls⟩, hres⟩ := hm
      have hres2 : ∃ r0 rs, m.tool_results.getD [] = r0 :: rs := by
        cases hl : m.tool_results.getD [] with
        | nil =>
          rw [hl] at hres
          simp at hres
        | cons a b => exact ⟨a, b, rfl⟩
      obtain ⟨r0, rs, hres2⟩ := hres2
      rw [db_to_api_tool_result m rest r0 rs hrole hres2, api_to_db_user_blocks]
      refine List.Forall₂.cons ?_ ihh
      simp only [filterMap_toolResultBlock_map]
      simp [preservesMsg, hrole, hc, hcalls, hres2]

/-- Counterexample for C6: the single-message transcript consisting of one
assistant message with no text and no tool calls has well-formed pairing,
yet the round trip drops the message entirely, so role and text are not
preserved for it. -/
theorem transcript_round_trip_counterexample :
    wellFormedPairing [⟨Role.assistant, none, none, none⟩] = true ∧
    anthropic_to_db_spec
        (_db_messages_to_anthropic [⟨Role.assistant, none, none, none⟩]) = [] := by
  constructor
  · rfl
  · rfl

/-- C6 amended: for every sequence of persisted messages with well-formed
tool-call and tool-result pairing in which, additionally, every user
message carries text and no descriptors, every assistant message carries
no empty-string text, at least one of text or tool calls, and no tool
results, and every tool_result message carries no text, no tool calls,
and at least one descriptor, converting to the model-API form and back is
lossless: pointwise, the role (user stays user, assistant stays
assistant, tool_result becomes the user turn of tool-result blocks and
back), the text content, the tool-call descriptors with their call_id
linkage, and the tool-result descriptors are preserved. -/
theorem transcript_round_trip (msgs : List ChatMessage)
    (hwf : wellFormedPairing msgs = true)
    (hpres : msgs.all msgRoundTrips = true) :
    List.Forall₂ (fun o r => preservesMsg o r = true) msgs
      (anthropic_to_db_spec (_db_messages_to_anthropic msgs)) :=
  transcript_round_trip_aux msgs hpres

/-- Concrete transcript with one answered tool call for the C6 witness. -/
def rtMsgs : List ChatMessage :=
  [⟨Role.user, some "hello", none, none⟩,
    ⟨Role.assistant, some "hi", some [⟨"c1", "get_counts", []⟩], none⟩,
    ⟨Role.tool_result, none, none, some [⟨"c1", "ok"⟩]⟩,
    ⟨Role.assistant, some "all done", none, none⟩]

/-- Witness for the amended C6 on a concrete well-formed transcript. -/
theorem transcript_round_trip_witness :
    List.Forall₂ (fun o r => preservesMsg o r = true) rtMsgs
      (anthropic_to_db_spec (_db_messages_to_anthropic rtMsgs)) :=
  transcript_round_trip rtMsgs (by decide) (by decide)
